import Mathlib

/-!
Verification of the document segmentation and lexical retrieval engine of the
Sophiallm repository, shallowly embedded from `frontend/api_server.py` and
`embeddings/text_processor.py`.  Python strings are modelled as `String` /
`List Char`, Python ints as `Int` / `Nat`, Python floats as `ℚ` (exact
arithmetic), and fallible or possibly diverging code as `Except` / fuelled
recursion.
-/

namespace Sophia

set_option maxRecDepth 40000

/-- Python whitespace class (`str.strip`, `str.split`, regex `\s`), ASCII range. -/
def isPySpace (c : Char) : Bool :=
  c = ' ' || c = '\t' || c = '\n' || c = '\r' || c = '\x0b' || c = '\x0c'

/-- Python regex `\w` word-character class, ASCII range. -/
def isWordChar (c : Char) : Bool :=
  c.isAlphanum || c = '_'

/-- `text.strip()` on a character list: drop whitespace from both ends. -/
def stripChars (cs : List Char) : List Char :=
  List.rdropWhile isPySpace (List.dropWhile isPySpace cs)

/-- `text.strip()` on a `String`. -/
def pyStrip (s : String) : String :=
  String.mk (stripChars s.data)

/-- `text.lower()` (ASCII case folding). -/
def pyLower (s : String) : String :=
  String.mk (s.data.map Char.toLower)

/-- Maximal runs of characters satisfying `p`, in order (regex `findall` of `p+`). -/
def runsAux (p : Char → Bool) : List Char → List Char → List (List Char)
  | [], cur => if cur.isEmpty then [] else [cur.reverse]
  | c :: rest, cur =>
    if p c then runsAux p rest (c :: cur)
    else if cur.isEmpty then runsAux p rest []
    else cur.reverse :: runsAux p rest []

/-- `re.findall(r'\w+', s)`: the maximal word-character runs of `s`. -/
def wordRuns (s : String) : List String :=
  (runsAux isWordChar s.data []).map String.mk

/-- `re.findall(r'\d+', s)`: the maximal digit runs of `s`. -/
def digitRuns (s : String) : List String :=
  (runsAux Char.isDigit s.data []).map String.mk

/-- `s.split()`: whitespace-delimited words, empties dropped. -/
def pySplitWs (s : String) : List String :=
  (runsAux (fun c => !isPySpace c) s.data []).map String.mk

/-- `set(re.findall(r'\w+', s.lower()))`: the lowercase word set of a string. -/
def wordSet (s : String) : Finset String :=
  (wordRuns (pyLower s)).toFinset

/-- `simple_text_similarity` (api_server.py lines 59-70): Jaccard similarity of
the two lowercase word sets, `0.0` when either set is empty. -/
def simple_text_similarity (query text : String) : ℚ :=
  let query_words := wordSet query
  let text_words := wordSet text
  if query_words = ∅ ∨ text_words = ∅ then 0
  else ((query_words ∩ text_words).card : ℚ) / ((query_words ∪ text_words).card : ℚ)

/-- C2: the lexical score is `|∩|/|∪|` of the word sets when both are non-empty,
`0` when either is empty, always lies in `[0,1]`, and `score(q,q) = 1` for any
`q` with a non-empty word set. -/
theorem simple_text_similarity_spec (q t : String) :
    0 ≤ simple_text_similarity q t ∧
    simple_text_similarity q t ≤ 1 ∧
    ((wordSet q = ∅ ∨ wordSet t = ∅) → simple_text_similarity q t = 0) ∧
    (¬ (wordSet q = ∅ ∨ wordSet t = ∅) →
      simple_text_similarity q t =
        ((wordSet q ∩ wordSet t).card : ℚ) / ((wordSet q ∪ wordSet t).card : ℚ)) ∧
    (wordSet q ≠ ∅ → simple_text_similarity q q = 1) := by
  constructor
  · by_cases h : wordSet q = ∅ ∨ wordSet t = ∅
    · simp [simple_text_similarity, h]
    · simp only [simple_text_similarity, if_neg h]
      positivity
  constructor
  · by_cases h : wordSet q = ∅ ∨ wordSet t = ∅
    · simp [simple_text_similarity, h]
    · simp only [simple_text_similarity, if_neg h]
      push_neg at h
      have hcard : (wordSet q ∩ wordSet t).card ≤ (wordSet q ∪ wordSet t).card :=
        Finset.card_le_card Finset.inter_subset_union
      have hpos : (0 : ℚ) < ((wordSet q ∪ wordSet t).card : ℚ) := by
        have : wordSet q ⊆ wordSet q ∪ wordSet t := Finset.subset_union_left
        have hne : (wordSet q ∪ wordSet t) ≠ ∅ := by
          intro he
          exact h.1 (Finset.subset_empty.mp (he ▸ this))
        have := Finset.card_pos.mpr (Finset.nonempty_iff_ne_empty.mpr hne)
        exact_mod_cast this
      rw [div_le_one hpos]
      exact_mod_cast hcard
  constructor
  · intro h; simp [simple_text_similarity, h]
  constructor
  · intro h; simp [simple_text_similarity, h]
  · intro h
    have hq : ¬ (wordSet q = ∅ ∨ wordSet q = ∅) := by simpa using h
    simp only [simple_text_similarity, if_neg hq, Finset.inter_self, Finset.union_self]
    have hpos : (0 : ℚ) < ((wordSet q).card : ℚ) := by
      have := Finset.card_pos.mpr (Finset.nonempty_iff_ne_empty.mpr h)
      exact_mod_cast this
    exact div_self (ne_of_gt hpos)

/-- Witness for `simple_text_similarity_spec` at concrete inputs. -/
theorem simple_text_similarity_spec_witness :
    (wordSet "mind" ≠ ∅) ∧ simple_text_similarity "mind" "mind" = 1 :=
  ⟨by decide, (simple_text_similarity_spec "mind" "body").2.2.2.2 (by decide)⟩

/-- C8 counterexample: the documented scenario score is not `1/8`.  The union of
the word sets of `"consciousness"` and of the chunk text has 7 distinct tokens
(the query token is shared), so the Jaccard score is `1/7`. -/
theorem scenario_score_ne_eighth :
    simple_text_similarity "consciousness"
      "Bob writes extensively about consciousness and awareness." ≠ 1 / 8 := by
  have hne : ¬ (wordSet "consciousness" = ∅ ∨
      wordSet "Bob writes extensively about consciousness and awareness." = ∅) := by decide
  have hi : (wordSet "consciousness" ∩
      wordSet "Bob writes extensively about consciousness and awareness.").card = 1 := by decide
  have hu : (wordSet "consciousness" ∪
      wordSet "Bob writes extensively about consciousness and awareness.").card = 7 := by decide
  rw [simple_text_similarity, if_neg hne, hi, hu]
  norm_num

/-- C8 amended: the scenario score equals exactly `1/7`. -/
theorem scenario_score_eq_seventh :
    simple_text_similarity "consciousness"
      "Bob writes extensively about consciousness and awareness." = 1 / 7 := by
  have hne : ¬ (wordSet "consciousness" = ∅ ∨
      wordSet "Bob writes extensively about consciousness and awareness." = ∅) := by decide
  have hi : (wordSet "consciousness" ∩
      wordSet "Bob writes extensively about consciousness and awareness.").card = 1 := by decide
  have hu : (wordSet "consciousness" ∪
      wordSet "Bob writes extensively about consciousness and awareness.").card = 7 := by decide
  rw [simple_text_similarity, if_neg hne, hi, hu]
  norm_num

/-- A chunk record as consumed by the retrieval endpoint: a `text` field plus an
optional `word_count` field (`chunk.get('word_count', 0)` tolerates absence). -/
structure FChunk where
  text : String
  word_count : Option Nat
deriving DecidableEq

/-- `text.count('.')`. -/
def countDots (s : String) : Nat :=
  s.data.countP (fun c => c = '.')

/-- Remainder of `cs` after the first occurrence of the literal `lit`,
or `none` if `lit` does not occur. -/
def findLit (lit : List Char) : List Char → Option (List Char)
  | [] => if lit.isEmpty then some [] else none
  | c :: rest =>
    if lit.isPrefixOf (c :: rest) then some ((c :: rest).drop lit.length)
    else findLit lit rest

/-- `re.search` of a pattern `lit₁.*lit₂.*⋯` within one newline-free segment:
the literals occur in order, chained through earliest occurrences (equivalent to
the regex engine's backtracking search). -/
def containsSeq : List (List Char) → List Char → Bool
  | [], _ => true
  | lit :: more, cs =>
    match findLit lit cs with
    | some rest => containsSeq more rest
    | none => false

/-- Python `s.split(sep)` for a one-character separator: split at every
occurrence, keeping empty pieces. -/
def splitOnCharAux (sep : Char) : List Char → List Char → List (List Char)
  | [], cur => [cur.reverse]
  | c :: rest, cur =>
    if c = sep then cur.reverse :: splitOnCharAux sep rest []
    else splitOnCharAux sep rest (c :: cur)

/-- `lit` occurs as a contiguous substring of `cs`. -/
def containsLit (lit : String) (cs : List Char) : Bool :=
  (findLit lit.data cs).isSome

/-- The `author_bio_patterns` of `is_quality_chunk`, each regex decomposed into
its literal segments separated by `.*` gaps.  `r'author of.*books?'` is
represented as `["author of", "book"]`: an unanchored search succeeds exactly
when `book` occurs, the optional `s` being irrelevant. -/
def author_bio_patterns : List (List String) :=
  [["professor of", "at", "university"],
   ["editor-in-chief"],
   ["he lives in"],
   ["she lives in"],
   ["phd", "university"],
   ["author of", "book"],
   ["co-director of"],
   ["director of", "centre"],
   ["visiting professor"]]

/-- `re.search` of an author-bio pattern in the lowercased text.  Since `.`
does not match a newline, every match lies within a single line, so the search
runs per `\n`-separated segment. -/
def bioMatch (textLower : String) : Bool :=
  (splitOnCharAux '\n' textLower.data []).any (fun line =>
    author_bio_patterns.any (fun pat => containsSeq (pat.map String.data) line))

/-- `re.search(r'\d+\s*$', text)`: after discarding trailing whitespace the
text ends in a digit.  (`$` means end-of-string here: the text was stripped, so
it has no trailing newline.) -/
def tocTrailingNumber (cs : List Char) : Bool :=
  match cs.reverse.dropWhile isPySpace with
  | [] => false
  | c :: _ => c.isDigit

/-- `re.search(r'^[A-Z\s]+\d+$', text, re.IGNORECASE)`: a letters-and-whitespace
run followed by a digit run spanning the whole text.  The two character classes
are disjoint, so maximal spans need no backtracking. -/
def tocAllCapsNumber (cs : List Char) : Bool :=
  let s := cs.span (fun c => c.isAlpha || isPySpace c)
  !s.1.isEmpty && !s.2.isEmpty && s.2.all Char.isDigit

/-- Does `cs` itself begin a match of `chapter\s+\d+[:\s]*$` (case-insensitive)?
`[:\s]*` cannot give back characters usefully before `$`, so maximal spans are
exact. -/
def matchChapterRefAt (cs : List Char) : Bool :=
  if (cs.take 7).map Char.toLower = "chapter".data then
    let r := cs.drop 7
    let s1 := r.span isPySpace
    if s1.1.isEmpty then false
    else
      let s2 := s1.2.span Char.isDigit
      if s2.1.isEmpty then false
      else (s2.2.dropWhile (fun c => c = ':' || isPySpace c)).isEmpty
  else false

/-- Does `cs` itself begin a match of `page\s+\d+` (case-insensitive)? -/
def matchPageRefAt (cs : List Char) : Bool :=
  if (cs.take 4).map Char.toLower = "page".data then
    let r := cs.drop 4
    let s1 := r.span isPySpace
    if s1.1.isEmpty then false
    else
      match s1.2 with
      | d :: _ => d.isDigit
      | [] => false
  else false

/-- Unanchored `re.search`: some suffix position begins a match. -/
def anySuffix (f : List Char → Bool) : List Char → Bool
  | [] => f []
  | c :: rest => f (c :: rest) || anySuffix f rest

/-- The five `toc_patterns` checks of `is_quality_chunk`. -/
def tocMatch (text : String) : Bool :=
  containsLit "..." text.data ||
  tocTrailingNumber text.data ||
  tocAllCapsNumber text.data ||
  anySuffix matchChapterRefAt text.data ||
  anySuffix matchPageRefAt text.data

/-- The dangling final words checked by `text.endswith((...))`. -/
def dangling_words : List String :=
  ["of", "the", "and", "or", "in", "at", "to", "for", "with", "by"]

/-- `text.endswith(('of', 'the', ...))`: a raw character-suffix check, not a
final-token check. -/
def endsWithDangling (t : String) : Bool :=
  dangling_words.any (fun w => w.data.isSuffixOf t.data)

/-- `re.split(r'[.!?]+', text)`: split on maximal runs of sentence punctuation,
keeping empty pieces at the ends exactly as `re.split` does. -/
def splitSepsAux (p : Char → Bool) : List Char → List Char → Bool → List (List Char)
  | [], cur, _ => [cur.reverse]
  | c :: rest, cur, inRun =>
    if p c then
      if inRun then splitSepsAux p rest cur true
      else cur.reverse :: splitSepsAux p rest [] true
    else splitSepsAux p rest (c :: cur) false

/-- The sentence pieces of `re.split(r'[.!?]+', text)`. -/
def pySplitSentences (s : String) : List String :=
  (splitSepsAux (fun c => c = '.' || c = '!' || c = '?') s.data [] false).map String.mk

/-- `len(s.strip()) > 20 and s.strip()[0].isupper()`. -/
def isCompleteSentence (s : String) : Bool :=
  let t := pyStrip s
  20 < t.length &&
    (match t.data with
     | c :: _ => c.isUpper
     | [] => false)

/-- `is_quality_chunk` (api_server.py lines 72-132).  Thresholds involving the
float literals `0.3` and `0.5` are modelled as the exact rational comparisons
`10·dots > 3·len` and `2·numbers > words`. -/
def is_quality_chunk (chunk : FChunk) : Bool :=
  let text := pyStrip chunk.text
  if text.length < 80 then false
  else if 10 * countDots text > 3 * text.length then false
  else if 2 * (digitRuns text).length > (pySplitWs text).length then false
  else if bioMatch (pyLower text) then false
  else if tocMatch text then false
  else if endsWithDangling text then false
  else if ((pySplitSentences text).filter isCompleteSentence).length < 2 then false
  else decide (30 ≤ (pySplitWs text).length)


/-- The length boost of `search_books`: `min(chunk.get('word_count', 0) / 100, 0.3)`. -/
def word_count_boost (c : FChunk) : ℚ :=
  min ((c.word_count.getD 0 : ℚ) / 100) (3 / 10)

/-- The adjusted (boosted) similarity computed per surviving chunk. -/
def adjusted_similarity (question : String) (c : FChunk) : ℚ :=
  simple_text_similarity question c.text + word_count_boost c

/-- Insert a scored chunk before the first element of not-larger score:
one step of a stable descending sort. -/
def insertDesc (x : FChunk × ℚ) : List (FChunk × ℚ) → List (FChunk × ℚ)
  | [] => [x]
  | y :: ys => if y.2 ≤ x.2 then x :: y :: ys else y :: insertDesc x ys

/-- Stable descending insertion sort, modelling Python's stable
`list.sort(key=lambda x: x[1], reverse=True)`. -/
def sortDesc : List (FChunk × ℚ) → List (FChunk × ℚ)
  | [] => []
  | x :: xs => insertDesc x (sortDesc xs)

/-- `search_books` (api_server.py lines 134-149): quality filter, boosted
scoring, stable descending sort, truncation to `top_k`. -/
def search_books (question : String) (chunks : List FChunk) (top_k : Nat) :
    List (FChunk × ℚ) :=
  let quality_chunks := chunks.filter is_quality_chunk
  let similarities := quality_chunks.map (fun c => (c, adjusted_similarity question c))
  (sortDesc similarities).take top_k

theorem insertDesc_perm (x : FChunk × ℚ) (l : List (FChunk × ℚ)) :
    (insertDesc x l).Perm (x :: l) := by
  induction l with
  | nil => rfl
  | cons y ys ih =>
    rw [insertDesc]
    split
    · rfl
    · exact (List.Perm.cons y ih).trans (List.Perm.swap x y ys)

theorem sortDesc_perm (l : List (FChunk × ℚ)) : (sortDesc l).Perm l := by
  induction l with
  | nil => rfl
  | cons x xs ih =>
    exact (insertDesc_perm x (sortDesc xs)).trans (List.Perm.cons x ih)

theorem insertDesc_sorted (x : FChunk × ℚ) (l : List (FChunk × ℚ))
    (h : l.Pairwise (fun a b => b.2 ≤ a.2)) :
    (insertDesc x l).Pairwise (fun a b => b.2 ≤ a.2) := by
  induction l with
  | nil => simp [insertDesc]
  | cons y ys ih =>
    rw [insertDesc]
    rw [List.pairwise_cons] at h
    split
    · rename_i hyx
      refine List.pairwise_cons.mpr ⟨?_, List.pairwise_cons.mpr h⟩
      intro z hz
      rcases List.mem_cons.mp hz with rfl | hz
      · exact hyx
      · exact (h.1 z hz).trans hyx
    · rename_i hyx
      push_neg at hyx
      refine List.pairwise_cons.mpr ⟨?_, ih h.2⟩
      intro z hz
      have hz' : z ∈ x :: ys := (insertDesc_perm x ys).mem_iff.mp hz
      rcases List.mem_cons.mp hz' with rfl | hz'
      · exact le_of_lt hyx
      · exact h.1 z hz'

theorem sortDesc_sorted (l : List (FChunk × ℚ)) :
    (sortDesc l).Pairwise (fun a b => b.2 ≤ a.2) := by
  induction l with
  | nil => exact List.Pairwise.nil
  | cons x xs ih => exact insertDesc_sorted x (sortDesc xs) ih

theorem insertDesc_filter (s : ℚ) (x : FChunk × ℚ) (l : List (FChunk × ℚ)) :
    (insertDesc x l).filter (fun p => p.2 = s) =
      (x :: l).filter (fun p => p.2 = s) := by
  induction l with
  | nil => rfl
  | cons y ys ih =>
    rw [insertDesc]
    split
    · rfl
    · rename_i hyx
      push_neg at hyx
      by_cases hx : x.2 = s <;> by_cases hy : y.2 = s
      · exact absurd (hy.trans hx.symm).le hyx.not_le
      · simp [List.filter_cons, ih, hx, hy]
      · simp [List.filter_cons, ih, hx, hy]
      · simp [List.filter_cons, ih, hx, hy]

theorem sortDesc_filter (s : ℚ) (l : List (FChunk × ℚ)) :
    (sortDesc l).filter (fun p => p.2 = s) = l.filter (fun p => p.2 = s) := by
  induction l with
  | nil => rfl
  | cons x xs ih =>
    rw [sortDesc, insertDesc_filter, List.filter_cons, List.filter_cons, ih]

/-- C1: `search_books` drops exactly the chunks rejected by the quality filter,
scores survivors with the boosted similarity, returns at most `top_k` pairs in
descending score order, and orders exact ties by original store position (the
sorted list restricted to any score class equals the store-order list
restricted to that class). -/
theorem search_books_spec (q : String) (chunks : List FChunk) (k : Nat) :
    search_books q chunks k =
      (sortDesc ((chunks.filter is_quality_chunk).map
        (fun c => (c, adjusted_similarity q c)))).take k ∧
    (search_books q chunks k).length ≤ k ∧
    (search_books q chunks k).Pairwise (fun a b => b.2 ≤ a.2) ∧
    (sortDesc ((chunks.filter is_quality_chunk).map
        (fun c => (c, adjusted_similarity q c)))).Perm
      ((chunks.filter is_quality_chunk).map (fun c => (c, adjusted_similarity q c))) ∧
    (∀ s : ℚ,
      (sortDesc ((chunks.filter is_quality_chunk).map
          (fun c => (c, adjusted_similarity q c)))).filter (fun p => p.2 = s) =
        ((chunks.filter is_quality_chunk).map
          (fun c => (c, adjusted_similarity q c))).filter (fun p => p.2 = s)) ∧
    ∀ p ∈ search_books q chunks k,
      is_quality_chunk p.1 = true ∧ p.2 = adjusted_similarity q p.1 := by
  refine ⟨rfl, ?_, ?_, sortDesc_perm _, fun s => sortDesc_filter s _, ?_⟩
  · exact (List.length_take _ _).le.trans (min_le_left _ _)
  · exact List.Pairwise.sublist (List.take_sublist _ _) (sortDesc_sorted _)
  · intro p hp
    have hp1 : p ∈ sortDesc ((chunks.filter is_quality_chunk).map
        (fun c => (c, adjusted_similarity q c))) := List.mem_of_mem_take hp
    have hp2 := (sortDesc_perm _).mem_iff.mp hp1
    rcases List.mem_map.mp hp2 with ⟨c, hc, hpc⟩
    refine ⟨?_, by rw [← hpc]⟩
    rw [← hpc]
    exact List.of_mem_filter hc

/-- C10: a chunk lacking the `word_count` field still scores without error and
its adjusted score is the pure Jaccard similarity (`chunk.get('word_count', 0)`
defaults to `0`, so the boost is `min(0, 0.3) = 0`). -/
theorem missing_word_count_scores_pure (q : String) (c : FChunk)
    (h : c.word_count = none) :
    adjusted_similarity q c = simple_text_similarity q c.text := by
  simp only [adjusted_similarity, word_count_boost, h, Option.getD_none, Nat.cast_zero]
  norm_num

/-- Witness for `missing_word_count_scores_pure` at a concrete chunk. -/
theorem missing_word_count_scores_pure_witness :
    adjusted_similarity "mind" ⟨"the embodied mind", none⟩ =
      simple_text_similarity "mind" "the embodied mind" :=
  missing_word_count_scores_pure "mind" ⟨"the embodied mind", none⟩ rfl

/-- C9 counterexample: the dangling-word rule is a raw suffix check, so
`"she held the baby"` is rejected (it ends with the characters `by`) although
its final whitespace-delimited token `baby` is not one of the listed words. -/
theorem dangling_rule_cex :
    endsWithDangling "she held the baby" = true ∧
    (pySplitWs "she held the baby").getLast? = some "baby" ∧
    "baby" ∉ dangling_words := by
  refine ⟨by decide, by decide, by decide⟩

/-- C9 amended: the rule rejects exactly the texts having one of the listed
words as a raw character suffix (token boundaries are not considered), and any
chunk whose trimmed text ends that way is rejected by the quality filter. -/
theorem dangling_rule_amended :
    (∀ t : String,
      endsWithDangling t = true ↔ ∃ w ∈ dangling_words, w.data.isSuffixOf t.data) ∧
    (∀ c : FChunk, endsWithDangling (pyStrip c.text) = true →
      is_quality_chunk c = false) := by
  constructor
  · intro t
    simp [endsWithDangling, List.any_eq_true]
  · intro c h
    simp [is_quality_chunk, h]

/-- Witness for `dangling_rule_amended` at a concrete chunk. -/
theorem dangling_rule_amended_witness :
    is_quality_chunk ⟨"she held the baby", some 4⟩ = false :=
  dangling_rule_amended.2 ⟨"she held the baby", some 4⟩ (by decide)

/-- `len(text)` as an integer, for Python index arithmetic. -/
def pyLen (cs : List Char) : ℤ := cs.length

/-- `text[i]` under Python indexing: a negative index addresses from the end,
an index out of range is an `IndexError` (`none`). -/
def pyIndex (cs : List Char) (i : ℤ) : Option Char :=
  if 0 ≤ i then cs.get? i.toNat
  else if 0 ≤ i + cs.length then cs.get? (i + cs.length).toNat
  else none

/-- `text[a:b]` under Python slice semantics: negative bounds count from the
end, then both bounds are clamped to `[0, len]`. -/
def pySlice (cs : List Char) (a b : ℤ) : List Char :=
  let n : ℤ := cs.length
  let norm : ℤ → ℤ := fun x => if x < 0 then max (x + n) 0 else min x n
  (cs.take (norm b).toNat).drop (norm a).toNat

/-- The `sentence_endings` list of `chunk_text`; note the two-character entry. -/
def sentence_endings : List String := [".", "!", "?", "\n\n"]

/-- `text[i] in sentence_endings`: the one-character string `text[i]` is
compared against each list entry (so the entry `"\n\n"` can never match). -/
def isSentenceEndingChar (c : Char) : Bool :=
  sentence_endings.contains (String.mk [c])

/-- The backward sentence-boundary search
`for i in range(end, search_start, -1)` of `chunk_text`, with `steps` the
number of range elements: returns `some (i+1)` for the first `i` whose
character is a sentence ending, `none` if the range is exhausted, and
`IndexError` if `text[i]` is out of Python range. -/
def searchBackAux (text : List Char) : Nat → ℤ → Except Unit (Option ℤ)
  | 0, _ => .ok none
  | steps + 1, i =>
    match pyIndex text i with
    | none => .error ()
    | some c =>
      if isSentenceEndingChar c then .ok (some (i + 1))
      else searchBackAux text steps (i - 1)

/-- The window-end computation of one `chunk_text` iteration:
`end = start + chunk_size`, snapped backward to just after a sentence ending
when this is not the final window. -/
def chunkEnd (text : List Char) (chunk_size start : ℤ) : Except Unit ℤ :=
  if start + chunk_size < pyLen text then
    match searchBackAux text
        ((start + chunk_size - max (start + chunk_size - 200) start).toNat)
        (start + chunk_size) with
    | .error _ => .error ()
    | .ok (some e) => .ok e
    | .ok none => .ok (start + chunk_size)
  else .ok (start + chunk_size)

/-- One iteration of the `chunk_text` while-loop from position `start`:
computes the window end, extracts and trims the window, and returns the next
start position together with the kept chunk, if any. -/
def chunkStep (text : List Char) (chunk_size overlap start : ℤ) :
    Except Unit (ℤ × Option (List Char)) :=
  match chunkEnd text chunk_size start with
  | .error _ => .error ()
  | .ok e =>
    let chunk := stripChars (pySlice text start e)
    .ok (e - overlap, if 50 < chunk.length then some chunk else none)

/-- The `while start < text_length` loop of `chunk_text`, with explicit fuel:
`none` means the fuel was exhausted with the loop still running. -/
def chunkLoop (text : List Char) (chunk_size overlap : ℤ) :
    Nat → ℤ → List (List Char) → Option (Except Unit (List (List Char)))
  | 0, _, _ => none
  | fuel + 1, start, chunks =>
    if start < pyLen text then
      match chunkStep text chunk_size overlap start with
      | .error _ => some (.error ())
      | .ok (start', kept) =>
        chunkLoop text chunk_size overlap fuel start'
          (match kept with
           | some c => chunks ++ [c]
           | none => chunks)
    else some (.ok chunks)

/-- `TextProcessor.chunk_text` (text_processor.py lines 20-65) with explicit
fuel: `none` means the loop is still running after `fuel` iterations,
`some (.error ())` an `IndexError`, `some (.ok chunks)` a normal return. -/
def chunk_text (fuel : Nat) (text : List Char) (chunk_size overlap : ℤ) :
    Option (Except Unit (List (List Char))) :=
  if stripChars text = [] then some (.ok [])
  else chunkLoop text chunk_size overlap fuel 0 []

/-- `chunk_text` terminates (returns or raises) on the given input. -/
def ChunkTextTerminates (text : List Char) (chunk_size overlap : ℤ) : Prop :=
  ∃ fuel r, chunk_text fuel text chunk_size overlap = some r

theorem stripChars_idem (cs : List Char) :
    stripChars (stripChars cs) = stripChars cs := by
  unfold stripChars
  have hfix : List.dropWhile isPySpace
      (List.rdropWhile isPySpace (List.dropWhile isPySpace cs)) =
      List.rdropWhile isPySpace (List.dropWhile isPySpace cs) := by
    rw [List.dropWhile_eq_self_iff]
    intro hl
    have hpre := List.rdropWhile_prefix isPySpace (List.dropWhile isPySpace cs)
    have hlen : 0 < (List.dropWhile isPySpace cs).length :=
      lt_of_lt_of_le hl hpre.length_le
    have hget := hpre.get_eq hl
    rw [hget]
    exact List.dropWhile_get_zero_not isPySpace cs hlen
  rw [hfix, List.rdropWhile_idempotent]

theorem pyIndex_of_lt (cs : List Char) (i : ℤ) (h0 : 0 ≤ i)
    (hl : i < (cs.length : ℤ)) : ∃ c, pyIndex cs i = some c := by
  rw [pyIndex, if_pos h0]
  have hn : i.toNat < cs.length := by omega
  exact ⟨cs.get ⟨i.toNat, hn⟩, List.get?_eq_get hn⟩

theorem searchBackAux_ok (text : List Char) :
    ∀ (steps : Nat) (i : ℤ), i < (text.length : ℤ) → (steps : ℤ) ≤ i + 1 →
    ∃ r, searchBackAux text steps i = .ok r ∧
      ∀ e, r = some e → i - steps + 2 ≤ e ∧ e ≤ i + 1 := by
  intro steps
  induction steps with
  | zero =>
    intro i _ _
    exact ⟨none, rfl, fun e he => by cases he⟩
  | succ k ih =>
    intro i hlen hle
    have h0 : 0 ≤ i := by push_cast at hle; omega
    obtain ⟨c, hc⟩ := pyIndex_of_lt text i h0 hlen
    by_cases hend : isSentenceEndingChar c = true
    · refine ⟨some (i + 1), ?_, ?_⟩
      · rw [searchBackAux, hc]
        simp [hend]
      · intro e he
        injection he with he
        subst he
        constructor <;> push_cast <;> omega
    · obtain ⟨r, hr, hb⟩ := ih (i - 1) (by omega) (by push_cast at hle ⊢; omega)
      refine ⟨r, ?_, ?_⟩
      · rw [searchBackAux, hc]
        simp only [hend, if_false, Bool.false_eq_true]
        exact hr
      · intro e he
        obtain ⟨h1, h2⟩ := hb e he
        constructor <;> push_cast at h1 h2 ⊢ <;> omega

theorem chunkEnd_ok (text : List Char) (csize start : ℤ)
    (hcs : 199 ≤ csize) (hs : 0 ≤ start) :
    ∃ e, chunkEnd text csize start = .ok e ∧ start + csize - 198 ≤ e := by
  have hpl : pyLen text = (text.length : ℤ) := rfl
  unfold chunkEnd
  by_cases h : start + csize < pyLen text
  · rw [if_pos h]
    have hmax1 : start + csize - 200 ≤ max (start + csize - 200) start :=
      le_max_left _ _
    have hmax2 : start ≤ max (start + csize - 200) start := le_max_right _ _
    have hub : max (start + csize - 200) start ≤ start + csize := by
      apply max_le <;> omega
    have hsteps : (((start + csize - max (start + csize - 200) start)).toNat : ℤ) =
        start + csize - max (start + csize - 200) start :=
      Int.toNat_of_nonneg (by omega)
    obtain ⟨r, hr, hb⟩ := searchBackAux_ok text
      ((start + csize - max (start + csize - 200) start)).toNat
      (start + csize) (by rw [← hpl]; exact h) (by rw [hsteps]; omega)
    cases r with
    | none =>
      refine ⟨start + csize, ?_, by omega⟩
      rw [hr]
    | some e =>
      obtain ⟨hb1, hb2⟩ := hb e rfl
      rw [hsteps] at hb1
      refine ⟨e, ?_, by omega⟩
      rw [hr]
  · rw [if_neg h]
    exact ⟨start + csize, rfl, by omega⟩

theorem chunkStep_ok (text : List Char) (csize o start : ℤ)
    (ho : 0 ≤ o) (hco : o + 199 ≤ csize) (hs : 0 ≤ start) :
    ∃ s kept, chunkStep text csize o start = .ok (s, kept) ∧ start + 1 ≤ s ∧
      ∀ c, kept = some c → 50 < c.length ∧ stripChars c = c := by
  obtain ⟨e, he, hbound⟩ := chunkEnd_ok text csize start (by omega) hs
  refine ⟨e - o,
    if 50 < (stripChars (pySlice text start e)).length
      then some (stripChars (pySlice text start e)) else none,
    ?_, by omega, ?_⟩
  · unfold chunkStep
    rw [he]
  · intro c hc
    by_cases hlen : 50 < (stripChars (pySlice text start e)).length
    · rw [if_pos hlen] at hc
      injection hc with hc
      subst hc
      exact ⟨hlen, stripChars_idem _⟩
    · rw [if_neg hlen] at hc
      cases hc

theorem chunkLoop_ok (text : List Char) (csize o : ℤ)
    (ho : 0 ≤ o) (hco : o + 199 ≤ csize) :
    ∀ (n : Nat) (start : ℤ) (acc : List (List Char)), 0 ≤ start →
      (text.length : ℤ) - start ≤ n →
      (∀ c ∈ acc, 50 < c.length ∧ stripChars c = c) →
      ∃ res, chunkLoop text csize o (n + 1) start acc = some (.ok res) ∧
        ∀ c ∈ res, 50 < c.length ∧ stripChars c = c := by
  intro n
  induction n with
  | zero =>
    intro start acc hs hm hacc
    have hnot : ¬ (start < pyLen text) := by
      show ¬ (start < (text.length : ℤ))
      omega
    rw [chunkLoop, if_neg hnot]
    exact ⟨acc, rfl, hacc⟩
  | succ k ih =>
    intro start acc hs hm hacc
    by_cases hlt : start < pyLen text
    · obtain ⟨s, kept, hstep, hs1, hkeep⟩ := chunkStep_ok text csize o start ho hco hs
      rw [chunkLoop, if_pos hlt, hstep]
      have hacc' : ∀ c ∈ (match kept with
          | some c => acc ++ [c]
          | none => acc), 50 < c.length ∧ stripChars c = c := by
        cases kept with
        | none => exact hacc
        | some c =>
          intro d hd
          rcases List.mem_append.mp hd with hd | hd
          · exact hacc d hd
          · rw [List.mem_singleton] at hd
            subst hd
            exact hkeep d rfl
      have hlt' : start < (text.length : ℤ) := hlt
      exact ih s _ (by omega) (by omega) hacc'
    · rw [chunkLoop, if_neg hlt]
      exact ⟨acc, rfl, hacc⟩

/-- C3 amended: whenever `0 ≤ overlap` and `overlap + 199 ≤ chunk_size`
(boundary snapping can move the window end back by at most 199 characters, so
this guarantees forward progress), `chunk_text` terminates normally and every
returned chunk is trimmed with trimmed length strictly greater than 50. -/
theorem chunk_text_terminates (text : List Char) (csize o : ℤ)
    (ho : 0 ≤ o) (hco : o + 199 ≤ csize) :
    ∃ fuel res, chunk_text fuel text csize o = some (.ok res) ∧
      ∀ c ∈ res, 50 < c.length ∧ stripChars c = c := by
  by_cases h : stripChars text = []
  · exact ⟨0, [], by rw [chunk_text, if_pos h], by simp⟩
  · obtain ⟨res, hres, hprop⟩ := chunkLoop_ok text csize o ho hco text.length 0 []
      le_rfl (by omega) (by simp)
    exact ⟨text.length + 1, res, by rw [chunk_text, if_neg h]; exact hres, hprop⟩

/-- Witness for `chunk_text_terminates` at a concrete input. -/
theorem chunk_text_terminates_witness :
    (0 : ℤ) ≤ 0 ∧ (0 : ℤ) + 199 ≤ 199 ∧
    ∃ fuel res, chunk_text fuel "some tiny document".data 199 0 = some (.ok res) ∧
      ∀ c ∈ res, 50 < c.length ∧ stripChars c = c :=
  ⟨by decide, by decide,
    chunk_text_terminates "some tiny document".data 199 0 (by decide) (by decide)⟩

/-- A 20-character text whose only sentence ending sits at index 2:
`"aa." ++ "a"*17`.  With `chunk_size = 10`, `overlap = 9` the loop reaches the
fixed point `start = -6` and never terminates. -/
def c3text : List Char := 'a' :: 'a' :: '.' :: List.replicate 17 'a'

theorem c3step_zero : chunkStep c3text 10 9 0 = .ok (-6, none) := rfl

theorem c3step_fix : chunkStep c3text 10 9 (-6) = .ok (-6, none) := rfl

theorem c3loop_stuck : ∀ (n : Nat) (acc : List (List Char)),
    chunkLoop c3text 10 9 n (-6) acc = none := by
  intro n
  induction n with
  | zero => intro acc; rfl
  | succ k ih =>
    intro acc
    rw [chunkLoop, if_pos (by decide : (-6 : ℤ) < pyLen c3text), c3step_fix]
    exact ih acc

theorem c3_never_returns : ∀ fuel, chunk_text fuel c3text 10 9 = none := by
  intro fuel
  rw [chunk_text, if_neg (by decide : ¬ (stripChars c3text = []))]
  cases fuel with
  | zero => rfl
  | succ k =>
    rw [chunkLoop, if_pos (by decide : (0 : ℤ) < pyLen c3text), c3step_zero]
    exact c3loop_stuck k []

/-- C3 counterexample: a non-empty 20-character text with `overlap = 9 <
chunk_size = 10` on which `chunk_text` loops forever.  The first window snaps
back to just after the early sentence ending, making the next start negative
(`3 - 9 = -6`); from there the Python slice `text[-6:3]` is empty, the short
chunk is dropped, and `start` stays at `-6` forever. -/
theorem chunk_text_nontermination_cex :
    stripChars c3text ≠ [] ∧ (9 : ℤ) < 10 ∧ ¬ ChunkTextTerminates c3text 10 9 := by
  refine ⟨by decide, by decide, ?_⟩
  rintro ⟨fuel, r, hr⟩
  rw [c3_never_returns fuel] at hr
  cases hr

/-- 200 homogeneous characters: with `chunk_size = overlap = 100` the loop
re-emits the same window forever. -/
def c4text : List Char := List.replicate 200 'a'

theorem c4step_zero :
    chunkStep c4text 100 100 0 = .ok (0, some (List.replicate 100 'a')) := rfl

theorem c4loop_stuck : ∀ (n : Nat) (acc : List (List Char)),
    chunkLoop c4text 100 100 n 0 acc = none := by
  intro n
  induction n with
  | zero => intro acc; rfl
  | succ k ih =>
    intro acc
    rw [chunkLoop, if_pos (by decide : (0 : ℤ) < pyLen c4text), c4step_zero]
    exact ih (acc ++ [List.replicate 100 'a'])

/-- C4: with `target_size ≤ overlap` on a text needing more than one window,
`chunk_text` does not fail fast: it neither returns nor raises any error for
any amount of fuel — the loop runs forever re-appending the same chunk. -/
theorem chunk_text_overlap_no_failfast :
    pyLen c4text = 200 ∧ ¬ ChunkTextTerminates c4text 100 100 := by
  refine ⟨by decide, ?_⟩
  rintro ⟨fuel, r, hr⟩
  rw [chunk_text, if_neg (by decide : ¬ (stripChars c4text = []))] at hr
  rw [c4loop_stuck fuel []] at hr
  cases hr

/-- 92 characters with a blank-line marker (`\n\n`) at indices 30-31 and no
sentence punctuation anywhere. -/
def c5text : List Char := List.replicate 30 'a' ++ '\n' :: '\n' :: List.replicate 60 'a'

/-- The first chunk the code actually emits on `c5text` with
`chunk_size = 60, overlap = 0`: the unsnapped 60-character window. -/
def c5chunk : List Char := List.replicate 30 'a' ++ '\n' :: '\n' :: List.replicate 28 'a'

/-- C5: the blank-line entry of `sentence_endings` is dead code, because the
one-character string `text[i]` is never equal to `"\n\n"`.  On a window whose
last 200 characters contain a blank-line marker and no `.`, `!` or `?`, the
end does not snap: the emitted chunk is the full unsnapped window, running
through the blank line, not the prefix ending just after the marker (`end = 32`). -/
theorem blank_line_marker_never_snaps :
    isSentenceEndingChar '\n' = false ∧
    (∀ c ∈ c5text, ¬ (c = '.' ∨ c = '!' ∨ c = '?')) ∧
    chunk_text 3 c5text 60 0 = some (.ok [c5chunk]) ∧
    '\n' ∈ c5chunk ∧
    c5chunk ≠ stripChars (pySlice c5text 0 32) := by
  exact ⟨by decide, by decide, rfl, by decide, by decide⟩

/-- `MAX_CHUNK_SIZE` from config.py: the hard token ceiling. -/
def MAX_CHUNK_SIZE : Nat := 8000

/-- A chunk dictionary as seen by `validate_chunks`: every field may be absent
(Python `field in chunk` is presence, subscripting an absent field raises). -/
structure PyChunk where
  book_title : Option String
  chapter : Option String
  text : Option String
  word_count : Option Nat
  token_count : Option Nat
deriving DecidableEq

/-- `TextProcessor.validate_chunks` (text_processor.py lines 190-216).
`chunk['word_count']` and `chunk['token_count']` are direct subscripts:  a
missing field raises `KeyError` (`Except.error`); the three required fields
are only tested for presence (`field in chunk`), not for non-emptiness. -/
def validate_chunks : List PyChunk → Except Unit (List PyChunk)
  | [] => .ok []
  | c :: rest =>
    match c.word_count with
    | none => .error ()
    | some wc =>
      if wc < 10 then validate_chunks rest
      else
        match c.token_count with
        | none => .error ()
        | some tc =>
          if MAX_CHUNK_SIZE < tc then validate_chunks rest
          else if c.book_title.isSome && c.chapter.isSome && c.text.isSome then
            (validate_chunks rest).map (fun l => c :: l)
          else validate_chunks rest

/-- C6 counterexample: a chunk whose `book_title` is present but empty is kept
(the claim says it must be dropped), and a chunk lacking the `word_count`
field makes `validate_chunks` raise `KeyError` (the claim says it never
raises). -/
theorem validate_chunks_cex :
    validate_chunks [⟨some "", some "Intro", some "body", some 12, some 5⟩] =
      .ok [⟨some "", some "Intro", some "body", some 12, some 5⟩] ∧
    (⟨some "", some "Intro", some "body", some 12, some 5⟩ : PyChunk).book_title =
      some "" ∧
    validate_chunks [⟨some "b", some "c", some "t", none, some 5⟩] = .error () :=
  ⟨rfl, rfl, rfl⟩

/-- C6 amended: provided every chunk carries `word_count` and `token_count`
fields, `validate_chunks` returns, without raising, exactly the chunks with
`word_count ≥ 10`, `token_count ≤ MAX_CHUNK_SIZE`, and the `book_title`,
`chapter` and `text` fields present (their values may be empty), preserving
relative order. -/
theorem validate_chunks_amended (chunks : List PyChunk)
    (h : ∀ c ∈ chunks, c.word_count.isSome ∧ c.token_count.isSome) :
    validate_chunks chunks = .ok (chunks.filter (fun c =>
      10 ≤ c.word_count.getD 0 && c.token_count.getD 0 ≤ MAX_CHUNK_SIZE &&
      c.book_title.isSome && c.chapter.isSome && c.text.isSome)) := by
  induction chunks with
  | nil => rfl
  | cons c rest ih =>
    obtain ⟨hwc, htc⟩ := h c (List.mem_cons_self _ _)
    obtain ⟨wc, hwc'⟩ := Option.isSome_iff_exists.mp hwc
    obtain ⟨tc, htc'⟩ := Option.isSome_iff_exists.mp htc
    have ih' := ih (fun d hd => h d (List.mem_cons_of_mem _ hd))
    by_cases h10 : wc < 10
    · have hno : ¬ (10 ≤ wc) := by omega
      simp [validate_chunks, hwc', htc', ih', List.filter_cons, h10, hno]
    · by_cases hbig : MAX_CHUNK_SIZE < tc
      · have hno : ¬ (tc ≤ MAX_CHUNK_SIZE) := by omega
        simp [validate_chunks, hwc', htc', ih', List.filter_cons, h10, hbig, hno]
      · have hy1 : 10 ≤ wc := by omega
        have hy2 : tc ≤ MAX_CHUNK_SIZE := by omega
        rcases Bool.eq_false_or_eq_true (c.book_title.isSome) with hb | hb <;>
          rcases Bool.eq_false_or_eq_true (c.chapter.isSome) with hch | hch <;>
            rcases Bool.eq_false_or_eq_true (c.text.isSome) with ht | ht <;>
              simp [validate_chunks, hwc', htc', ih', List.filter_cons, h10, hbig,
                hb, hch, ht, hy1, hy2, Except.map]

/-- Witness for `validate_chunks_amended` at a concrete two-chunk list: the
valid chunk is kept, the ten-word-rule violator is dropped, nothing raises. -/
theorem validate_chunks_amended_witness :
    validate_chunks
      [⟨some "b", some "ch", some "t", some 15, some 100⟩,
       ⟨some "b", some "ch", some "t", some 5, some 100⟩] =
      .ok [⟨some "b", some "ch", some "t", some 15, some 100⟩] := by
  rw [validate_chunks_amended _ (by decide)]
  rfl

/-- A (title, content) section produced by the segmenter. -/
structure Chapter where
  title : String
  content : String
deriving DecidableEq

/-- Group 1 of `re.match(r'^Chapter\s+\d+[:\s]*(.+)$', line, re.IGNORECASE)`.
The greedy `\s+`, `\d+`, `[:\s]*` runs backtrack minimally (rightmost first)
to leave at least one character for `(.+)`; the classes are disjoint from what
follows them, so only the final run can usefully give characters back. -/
def matchChapterHeading (cs : List Char) : Option (List Char) :=
  if (cs.take 7).map Char.toLower = "chapter".data then
    let r := cs.drop 7
    let s1 := r.span isPySpace
    if s1.1.isEmpty then none
    else
      let s2 := s1.2.span Char.isDigit
      if s2.1.isEmpty then none
      else
        let s3 := s2.2.span (fun c => c = ':' || isPySpace c)
        if !s3.2.isEmpty then some s3.2
        else
          match s3.1.getLast? with
          | some c => some [c]
          | none =>
            if 2 ≤ s2.1.length then
              match s2.1.getLast? with
              | some d => some [d]
              | none => none
            else none
  else none

/-- Group 1 of `re.match(r'^\d+[.\s]*(.+)$', line)`, same backtracking shape. -/
def matchNumberHeading (cs : List Char) : Option (List Char) :=
  let s1 := cs.span Char.isDigit
  if s1.1.isEmpty then none
  else
    let s2 := s1.2.span (fun c => c = '.' || isPySpace c)
    if !s2.2.isEmpty then some s2.2
    else
      match s2.1.getLast? with
      | some c => some [c]
      | none =>
        if 2 ≤ s1.1.length then
          match s1.1.getLast? with
          | some d => some [d]
          | none => none
        else none

/-- Group 1 of `re.match(r'^#\s*(.+)$', line)`. -/
def matchHashHeading (cs : List Char) : Option (List Char) :=
  match cs with
  | '#' :: r =>
    let s1 := r.span isPySpace
    if !s1.2.isEmpty then some s1.2
    else
      match s1.1.getLast? with
      | some c => some [c]
      | none => none
  | _ => none

/-- Group 1 of `re.match(r'^\*\*(.+)\*\*$', line)`: the line is wrapped in
double asterisks around a non-empty middle (greedy `.+` backtracks to leave
the final two asterisks). -/
def matchBoldHeading (cs : List Char) : Option (List Char) :=
  if 5 ≤ cs.length ∧ cs.take 2 = ['*', '*'] ∧ cs.drop (cs.length - 2) = ['*', '*'] then
    some ((cs.drop 2).take (cs.length - 4))
  else none

/-- First-match-wins over the four `chapter_patterns` of `extract_chapters`,
returning `match.group(1).strip()`. -/
def headerTitle (line : String) : Option String :=
  match matchChapterHeading line.data with
  | some g => some (pyStrip (String.mk g))
  | none =>
    match matchNumberHeading line.data with
    | some g => some (pyStrip (String.mk g))
    | none =>
      match matchHashHeading line.data with
      | some g => some (pyStrip (String.mk g))
      | none =>
        match matchBoldHeading line.data with
        | some g => some (pyStrip (String.mk g))
        | none => none

/-- The stripped, non-blank lines the `extract_chapters` loop processes. -/
def processedLines (text : String) : List String :=
  ((splitOnCharAux '\n' text.data []).map (fun l => pyStrip (String.mk l))).filter
    (fun l => l ≠ "")

/-- `if current_chapter: chapters.append(...)` — Python truthiness makes both
`None` and the empty title skip the append. -/
def flushChapter (curr : Option String) (content : List String) : List Chapter :=
  match curr with
  | some t => if t ≠ "" then [⟨t, String.intercalate "\n" content⟩] else []
  | none => []

/-- The line scan of `extract_chapters`: `curr` is `current_chapter`,
`content` is `current_content`. -/
def extractLoop : List String → Option String → List String → List Chapter
  | [], curr, content => flushChapter curr content
  | l :: rest, curr, content =>
    match headerTitle l with
    | some t => flushChapter curr content ++ extractLoop rest (some t) []
    | none => extractLoop rest curr (content ++ [l])

/-- `TextProcessor.extract_chapters` (text_processor.py lines 67-124). -/
def extract_chapters (text : String) : List Chapter :=
  extractLoop (processedLines text) none []

/-- The chapter-selection step of `process_book_file` (text_processor.py lines
151-155): when no chapter was detected the whole content becomes the single
implicit `"Full Text"` chapter. -/
def chaptersForProcessing (content : String) : List Chapter :=
  let chapters := extract_chapters content
  if chapters.isEmpty then [⟨"Full Text", content⟩] else chapters

theorem extractLoop_skip (ls : List String) : ∀ acc,
    extractLoop ls none acc =
      extractLoop (ls.dropWhile (fun l => (headerTitle l).isNone)) none [] := by
  induction ls with
  | nil => intro acc; rfl
  | cons l rest ih =>
    intro acc
    cases hh : headerTitle l with
    | some t =>
      simp [extractLoop, hh, flushChapter, List.dropWhile_cons]
    | none =>
      simp only [extractLoop, hh, List.dropWhile_cons, Option.isNone_none, if_true]
      exact ih (acc ++ [l])

/-- C7: the segmenter's output depends only on the lines from the first
detected heading onward (body lines before the first heading are discarded),
and when no line matches any heading pattern it emits zero sections while the
caller substitutes the single section titled `"Full Text"` holding the whole
document. -/
theorem segmenter_discards_leading_and_fulltext (text : String) :
    extract_chapters text =
      extractLoop ((processedLines text).dropWhile (fun l => (headerTitle l).isNone))
        none [] ∧
    ((∀ l ∈ processedLines text, headerTitle l = none) →
      extract_chapters text = [] ∧
      chaptersForProcessing text = [⟨"Full Text", text⟩]) := by
  constructor
  · exact extractLoop_skip (processedLines text) []
  · intro hno
    have hdrop : (processedLines text).dropWhile (fun l => (headerTitle l).isNone) = [] := by
      rw [List.dropWhile_eq_nil_iff]
      intro x hx
      simp [hno x hx]
    have h1 : extract_chapters text = [] := by
      rw [show extract_chapters text = _ from extractLoop_skip (processedLines text) [],
        hdrop]
      rfl
    exact ⟨h1, by simp [chaptersForProcessing, h1]⟩

/-- Witness for `segmenter_discards_leading_and_fulltext` on a heading-free
document. -/
theorem segmenter_fulltext_witness :
    extract_chapters "hello world\nsecond line" = [] ∧
    chaptersForProcessing "hello world\nsecond line" =
      [⟨"Full Text", "hello world\nsecond line"⟩] :=
  (segmenter_discards_leading_and_fulltext "hello world\nsecond line").2 (by decide)
